import Mathlib

/-!
Verification of the deoplete-server core: a shallow embedding of the
frame channel (stream.py), the worker pool (process.py), the readiness
poller (polling.py) and the worker server loop (server.py), with theorems
settling the specification claims about them.
-/

set_option maxRecDepth 4096

namespace Deoplete

/-- A Python value as it can travel over the pickle channel.  The `obj`
constructor stands for any other pickleable object (log records and the
like), identified by an opaque tag. -/
inductive PyObj where
  | none
  | bool (b : Bool)
  | int (n : Int)
  | str (s : String)
  | list (xs : List PyObj)
  | tuple (xs : List PyObj)
  | obj (tag : Nat)

/-- Frame header encoding: `struct.pack('I', n)`, four bytes in
little-endian order.  The Python call raises `struct.error` when
`n >= 2 ^ 32`; callers of `packI` guard that bound separately. -/
def packI (n : Nat) : List Nat :=
  [n % 256, n / 256 % 256, n / 256 ^ 2 % 256, n / 256 ^ 3 % 256]

/-- Frame header decoding: `struct.unpack('I', b)[0]` on a 4-byte string. -/
def unpackI (b : List Nat) : Nat :=
  match b with
  | [b0, b1, b2, b3] => b0 + b1 * 256 + b2 * 256 ^ 2 + b3 * 256 ^ 3
  | _ => 0

theorem packI_length (n : Nat) : (packI n).length = 4 := rfl

theorem unpackI_packI (n : Nat) (h : n < 4294967296) : unpackI (packI n) = n := by
  simp only [packI, unpackI]
  omega

/-- The bytes still available from the underlying pipe.  `read(n)` on a
buffered pipe returns `min n available` bytes; a short result only occurs
at end of stream, after which nothing further arrives. -/
structure ByteSource where
  data : List Nat

/-- Reader side of the frame channel (`stream.Reader`): the wrapped byte
stream plus the `_closed` flag. -/
structure Reader where
  stream : ByteSource
  closed : Bool

/-- What `Reader.read` returns when it does not raise: the `Null`
sentinel object, or a decoded value. -/
inductive ReadValue where
  | null
  | val (v : PyObj)

/-- `stream.Reader.read`: read exactly 4 header bytes; if short, mark
closed and return `Null`; else read exactly `length` payload bytes; if
short, mark closed and return `Null`; else unpickle and return.  `loads`
is the external `pickle.loads`; when it fails on the payload the Python
code would propagate its exception, modelled by `Except.error`.  The
delegation branch for a `Reader` wrapping another `Reader` simply recurses
into the inner instance and is not modelled. -/
def Reader.read (loads : List Nat → Option PyObj) (r : Reader) :
    Except Unit ReadValue × Reader :=
  let hdr := r.stream.data.take 4
  if hdr.length = 4 then
    let len := unpackI hdr
    let rest := r.stream.data.drop 4
    let payload := rest.take len
    if payload.length = len then
      match loads payload with
      | some v => (.ok (.val v), { r with stream := ⟨rest.drop len⟩ })
      | Option.none => (.error (), { r with stream := ⟨rest.drop len⟩ })
    else
      (.ok .null, { stream := ⟨rest.drop len⟩, closed := true })
  else
    (.ok .null, { stream := ⟨r.stream.data.drop 4⟩, closed := true })

/-- Iterated reads: the outcomes of `n` successive `read()` calls and the
final reader state. -/
def readAll (loads : List Nat → Option PyObj) :
    Nat → Reader → List (Except Unit ReadValue) × Reader
  | 0, r => ([], r)
  | n + 1, r =>
    let step := r.read loads
    let rest := readAll loads n step.2
    (step.1 :: rest.1, rest.2)

/-- Writer side of the frame channel (`stream.Writer`): the bytes pushed
to the underlying stream, whether the peer is gone or the stream closed
(so that the buffered write or flush raises `BrokenPipeError` or
`ValueError`), and the `_closed` flag. -/
structure Writer where
  sink : List Nat
  broken : Bool
  closed : Bool

/-- Outcome of `Writer.write`: a returned boolean, or a propagated
exception (`struct.error` from packing an oversized length, which happens
before the `try` block). -/
inductive WriteResult where
  | ret (b : Bool)
  | exn

/-- `stream.Writer.write`: pickle the object, pack the 4-byte length,
write length plus payload as one operation and flush; on `BrokenPipeError`
or `ValueError` mark closed and return `False`, else return `True`.
`dumps` is the external `pickle.dumps`.  The delegation branch for a
`Writer` wrapping another `Writer` is not modelled. -/
def Writer.write (dumps : PyObj → List Nat) (w : Writer) (v : PyObj) :
    WriteResult × Writer :=
  let data := dumps v
  if data.length < 4294967296 then
    let frame := packI data.length ++ data
    if w.broken then
      (.ret false, { w with closed := true })
    else
      (.ret true, { w with sink := w.sink ++ frame })
  else
    (.exn, w)

/-- Shape normalization shared by the `tuple`/`list` branch of
`read_command`: a 2-element sequence yields `(data[0], -4, data[1])`, a
3-element sequence passes through, anything else yields
`(None, -5, data)` with `data` the whole sequence object. -/
def normalizeSeq (data : PyObj) (xs : List PyObj) : ReadValue × PyObj × PyObj :=
  match xs with
  | [a, b] => (.val a, .int (-4), b)
  | [a, b, c] => (.val a, b, c)
  | _ => (.val .none, .int (-5), data)

/-- The branch cascade of `stream.read_command` on the value obtained
from `stream.read()`: `None` yields `(None, -1, [])`, the `Null` sentinel
yields `(Null, -2, [])`, bare text yields `(text, -3, [])`, a `tuple` or
`list` goes through `normalizeSeq`, and any other object `o` yields
`(None, -6, [o])`. -/
def normalizeCommand (d : ReadValue) : ReadValue × PyObj × PyObj :=
  match d with
  | .val .none => (.val .none, .int (-1), .list [])
  | .null => (.null, .int (-2), .list [])
  | .val (.str s) => (.val (.str s), .int (-3), .list [])
  | .val (.list xs) => normalizeSeq (.list xs) xs
  | .val (.tuple xs) => normalizeSeq (.tuple xs) xs
  | .val other => (.val .none, .int (-6), .list [other])

/-- The argument passed to `read_command`: a frame-channel `Reader`, or
any other object (identified by an opaque tag), for which the
`isinstance` guard fires. -/
inductive StreamArg where
  | reader (r : Reader)
  | notReader (tag : Nat)

/-- How `read_command` can raise: the `TypeError` from its `isinstance`
guard, or an exception propagated out of `stream.read()` itself. -/
inductive CmdError where
  | typeError
  | readError

/-- `stream.read_command`: raise `TypeError` when the argument is not a
`Reader` instance (before any read happens); otherwise read one value and
normalize it into a `(cmd, cmd_id, args)` triple. -/
def read_command (loads : List Nat → Option PyObj) (s : StreamArg) :
    Except CmdError ((ReadValue × PyObj × PyObj) × Reader) :=
  match s with
  | .notReader _ => .error .typeError
  | .reader r =>
    match r.read loads with
    | (.error _, _) => .error .readError
    | (.ok d, r2) => .ok (normalizeCommand d, r2)

/-- True for the values given a dedicated branch by `read_command`
before the catch-all `(None, -6, [data])` case: `None`, text, tuples and
lists. -/
def hasDedicatedBranch : PyObj → Bool
  | .none => true
  | .str _ => true
  | .list _ => true
  | .tuple _ => true
  | _ => false

/-- C4: writing an encodable value through the frame channel and reading
it back yields the value again.  `pickle` is external to the repository
and, per the spec, need only be symmetric for the value in question
(`hsym`); `hlen` is the bound under which `struct.pack` accepts the
payload length. -/
theorem c4_frame_roundtrip (dumps : PyObj → List Nat) (loads : List Nat → Option PyObj)
    (v : PyObj) (hsym : loads (dumps v) = some v)
    (hlen : (dumps v).length < 4294967296) :
    Writer.write dumps ⟨[], false, false⟩ v =
      (.ret true, ⟨packI (dumps v).length ++ dumps v, false, false⟩) ∧
    Reader.read loads ⟨⟨(Writer.write dumps ⟨[], false, false⟩ v).2.sink⟩, false⟩ =
      (.ok (.val v), ⟨⟨[]⟩, false⟩) := by
  have hw : Writer.write dumps ⟨[], false, false⟩ v =
      (.ret true, ⟨packI (dumps v).length ++ dumps v, false, false⟩) := by
    simp [Writer.write, hlen]
  refine ⟨hw, ?_⟩
  rw [hw]
  have htake : (packI (dumps v).length ++ dumps v).take 4 = packI (dumps v).length :=
    List.take_left' (packI_length _)
  have hdrop : (packI (dumps v).length ++ dumps v).drop 4 = dumps v :=
    List.drop_left' (packI_length _)
  simp [Reader.read, htake, hdrop, packI_length, unpackI_packI _ hlen, hsym]

/-- Witness for C4 at a concrete serializer and value. -/
theorem c4_frame_roundtrip_witness :
    Reader.read (fun b => if b = [7] then some (.int 5) else Option.none)
      ⟨⟨(Writer.write (fun _ => [7]) ⟨[], false, false⟩ (.int 5)).2.sink⟩, false⟩ =
      (.ok (.val (.int 5)), ⟨⟨[]⟩, false⟩) :=
  (c4_frame_roundtrip (fun _ => [7]) (fun b => if b = [7] then some (.int 5) else Option.none)
    (.int 5) rfl (by decide)).2

/-- C5: a short read on the 4-byte header or on the payload marks the
reader closed and returns the `Null` sentinel, every later read on the
drained reader keeps returning the sentinel without raising, and a write
against a broken or already-closed stream marks the writer closed and
returns `False` without raising. -/
theorem c5_channel_closed (loads : List Nat → Option PyObj) (dumps : PyObj → List Nat)
    (r : Reader) (w : Writer) (v : PyObj)
    (hshort : r.stream.data.length < 4 ∨
      r.stream.data.length < 4 + unpackI (r.stream.data.take 4))
    (hbroken : w.broken = true)
    (hlen : (dumps v).length < 4294967296) :
    r.read loads = (.ok .null, ⟨⟨[]⟩, true⟩) ∧
    (∀ n, readAll loads n ⟨⟨[]⟩, true⟩ = (List.replicate n (.ok .null), ⟨⟨[]⟩, true⟩)) ∧
    Writer.write dumps w v = (.ret false, { w with closed := true }) := by
  refine ⟨?_, ?_, ?_⟩
  · by_cases h4 : r.stream.data.length < 4
    · have hd : r.stream.data.drop 4 = [] := by
        apply List.drop_eq_nil_of_le
        omega
      have htl : (r.stream.data.take 4).length ≠ 4 := by
        simp only [List.length_take]
        omega
      simp only [Reader.read]
      rw [if_neg htl, hd]
    · have hlen4 : (r.stream.data.take 4).length = 4 := by
        simp only [List.length_take]
        omega
      have hpay : r.stream.data.length < 4 + unpackI (r.stream.data.take 4) := by
        rcases hshort with h | h
        · exact absurd h h4
        · exact h
      have hrest : (r.stream.data.drop 4).length < unpackI (r.stream.data.take 4) := by
        simp only [List.length_drop]
        omega
      have hne : ((r.stream.data.drop 4).take (unpackI (r.stream.data.take 4))).length ≠
          unpackI (r.stream.data.take 4) := by
        simp only [List.length_take]
        omega
      have hnil : (r.stream.data.drop 4).drop (unpackI (r.stream.data.take 4)) = [] := by
        apply List.drop_eq_nil_of_le
        omega
      simp only [Reader.read]
      rw [if_pos hlen4, if_neg hne, hnil]
  · intro n
    induction n with
    | zero => rfl
    | succ k ih =>
      have hstep : Reader.read loads ⟨⟨[]⟩, true⟩ = (.ok .null, ⟨⟨[]⟩, true⟩) := rfl
      simp [readAll, hstep, ih, List.replicate_succ]
  · simp [Writer.write, hlen, hbroken]

/-- Witness for C5 at a concrete two-byte (short) stream and broken
writer. -/
theorem c5_channel_closed_witness :
    Reader.read (fun _ => Option.none) ⟨⟨[0, 1]⟩, false⟩ = (.ok .null, ⟨⟨[]⟩, true⟩) :=
  (c5_channel_closed (fun _ => Option.none) (fun _ => []) ⟨⟨[0, 1]⟩, false⟩
    ⟨[], true, false⟩ .none (Or.inl (by decide)) rfl (by decide)).1

/-- C7: `read_command` on a reader whose read decodes a payload returns a
normalized 3-tuple and never raises: bare text yields a zero-argument
command with reserved id `-3`, a 2-element sequence yields
`(name, -4, args)`, a 3-element sequence passes through, any other
sequence length yields the unparseable command `(None, -5, data)` with
the raw payload, and any other decoded object `o` yields
`(None, -6, [o])`. -/
theorem c7_read_command_normalizes (loads : List Nat → Option PyObj)
    (r r2 : Reader) (d : ReadValue) (h : r.read loads = (.ok d, r2)) :
    read_command loads (.reader r) = .ok (normalizeCommand d, r2) ∧
    (∀ s, normalizeCommand (.val (.str s)) = (.val (.str s), .int (-3), .list [])) ∧
    (∀ dat a b, normalizeSeq dat [a, b] = (.val a, .int (-4), b)) ∧
    (∀ dat a b c, normalizeSeq dat [a, b, c] = (.val a, b, c)) ∧
    (∀ dat xs, xs.length ≠ 2 → xs.length ≠ 3 →
      normalizeSeq dat xs = (.val .none, .int (-5), dat)) ∧
    (∀ xs, normalizeCommand (.val (.list xs)) = normalizeSeq (.list xs) xs) ∧
    (∀ xs, normalizeCommand (.val (.tuple xs)) = normalizeSeq (.tuple xs) xs) ∧
    (∀ o, hasDedicatedBranch o = false →
      normalizeCommand (.val o) = (.val .none, .int (-6), .list [o])) := by
  refine ⟨?_, fun s => rfl, fun dat a b => rfl, fun dat a b c => rfl, ?_, fun xs => rfl,
    fun xs => rfl, ?_⟩
  · simp [read_command, h]
  · intro dat xs h2 h3
    match xs with
    | [] => rfl
    | [a] => rfl
    | [a, b] => simp at h2
    | [a, b, c] => simp at h3
    | a :: b :: c :: e :: t => rfl
  · intro o ho
    cases o <;> first | rfl | simp [hasDedicatedBranch] at ho

/-- Witness for C7 at a concrete reader holding one decodable frame. -/
theorem c7_read_command_normalizes_witness :
    read_command (fun _ => some PyObj.none) (.reader ⟨⟨[1, 0, 0, 0, 7]⟩, false⟩) =
      .ok (normalizeCommand (.val .none), ⟨⟨[]⟩, false⟩) :=
  (c7_read_command_normalizes (fun _ => some PyObj.none) ⟨⟨[1, 0, 0, 0, 7]⟩, false⟩
    ⟨⟨[]⟩, false⟩ (.val .none) rfl).1

/-- C10: `read_command` applied to an object that is not a `Reader`
instance raises `TypeError` before any read is attempted. -/
theorem c10_read_command_type_guard (loads : List Nat → Option PyObj) (tag : Nat) :
    read_command loads (.notReader tag) = .error .typeError := rfl

/-- One worker subprocess (`process.Process`): `__init__` sets
`busy = False` and draws `_id` from the module counter `_process_id`;
`start()` opens the stdin pipe whose written frames we record. -/
structure Process where
  busy : Bool
  id : Nat
  stdin : List PyObj

/-- `Process.__init__` followed by `start()`: a fresh worker is idle and
has written nothing to its input stream yet. -/
def freshProcess (pid : Nat) : Process :=
  { busy := false, id := pid, stdin := [] }

/-- `process.ProcessManager` together with the module-level counters
`_command_id` and `_process_id` it draws from. -/
structure ProcessManager where
  min_procs : Nat
  max_procs : Nat
  procs : List Process
  commandId : Nat
  processId : Nat

/-- `ProcessManager.spawn`: create and start a `Process` and append it to
`_procs` (stream registration has no effect on the pool state modelled
here). -/
def spawn (m : ProcessManager) : Process × ProcessManager :=
  let p := freshProcess m.processId
  (p, { m with procs := m.procs ++ [p], processId := m.processId + 1 })

/-- Fuelled form of the `while len(self._procs) < self.min_procs:
self.spawn()` loop at the top of `available_proc`; each iteration grows
the pool by one, so `min_procs - len` fuel is exact. -/
def spawnLoop : Nat → ProcessManager → ProcessManager
  | 0, m => m
  | fuel + 1, m =>
    if m.procs.length < m.min_procs then spawnLoop fuel (spawn m).2 else m

/-- The `while len(self._procs) < self.min_procs: self.spawn()` loop at
the top of `available_proc`. -/
def spawnToMin (m : ProcessManager) : ProcessManager :=
  spawnLoop (m.min_procs - m.procs.length) m

theorem spawn_procs (m : ProcessManager) :
    (spawn m).2.procs = m.procs ++ [freshProcess m.processId] := rfl

theorem spawn_fields (m : ProcessManager) :
    (spawn m).2.min_procs = m.min_procs ∧ (spawn m).2.max_procs = m.max_procs ∧
      (spawn m).2.commandId = m.commandId := ⟨rfl, rfl, rfl⟩

theorem spawnLoop_congr (fuel : Nat) (m : ProcessManager)
    (h : m.min_procs - m.procs.length ≤ fuel) :
    spawnLoop fuel m = spawnLoop (m.min_procs - m.procs.length) m := by
  induction fuel generalizing m with
  | zero =>
    have h0 : m.min_procs - m.procs.length = 0 := Nat.le_zero.mp h
    rw [h0]
  | succ k ih =>
    by_cases hlt : m.procs.length < m.min_procs
    · have hsub : m.min_procs - m.procs.length = (m.min_procs - (m.procs.length + 1)) + 1 := by
        omega
    -- the canonical fuel for the spawned state
      have hlen : (spawn m).2.procs.length = m.procs.length + 1 := by
        simp [spawn_procs]
      have hmin : (spawn m).2.min_procs = m.min_procs := rfl
      have hcanon : (spawn m).2.min_procs - (spawn m).2.procs.length =
          m.min_procs - (m.procs.length + 1) := by
        rw [hmin, hlen]
      calc spawnLoop (k + 1) m = spawnLoop k (spawn m).2 := by
            simp [spawnLoop, hlt]
        _ = spawnLoop ((spawn m).2.min_procs - (spawn m).2.procs.length) (spawn m).2 := by
            apply ih
            rw [hcanon]
            omega
        _ = spawnLoop (m.min_procs - m.procs.length) m := by
            rw [hcanon, hsub]
            simp [spawnLoop, hlt]
    · have h0 : m.min_procs - m.procs.length = 0 := by omega
      rw [h0]
      simp [spawnLoop, hlt]

/-- The loop in its source-shaped recursive form. -/
theorem spawnToMin_eq (m : ProcessManager) :
    spawnToMin m = if m.procs.length < m.min_procs then spawnToMin (spawn m).2 else m := by
  by_cases hlt : m.procs.length < m.min_procs
  · have hsub : m.min_procs - m.procs.length = (m.min_procs - (m.procs.length + 1)) + 1 := by
      omega
    have hlen : (spawn m).2.procs.length = m.procs.length + 1 := by
      simp [spawn_procs]
    have hmin : (spawn m).2.min_procs = m.min_procs := rfl
    rw [if_pos hlt]
    show spawnLoop (m.min_procs - m.procs.length) m = spawnToMin (spawn m).2
    rw [hsub]
    simp only [spawnLoop, if_pos hlt]
    show spawnLoop (m.min_procs - (m.procs.length + 1)) (spawn m).2 = spawnToMin (spawn m).2
    unfold spawnToMin
    rw [hmin, hlen]
  · rw [if_neg hlt]
    unfold spawnToMin
    have h0 : m.min_procs - m.procs.length = 0 := by omega
    rw [h0]
    rfl

/-- `ProcessManager.available_proc`: grow to `min_procs`, return the
index of the first non-busy worker in insertion order, else spawn a new
one if below `max_procs`, else return nothing (Python falls off the end
and returns `None`). -/
def available_proc (m : ProcessManager) : Option Nat × ProcessManager :=
  match (spawnToMin m).procs.findIdx? (fun p => !p.busy) with
  | some i => (some i, spawnToMin m)
  | Option.none =>
    if (spawnToMin m).procs.length < (spawnToMin m).max_procs then
      (some (spawnToMin m).procs.length, (spawn (spawnToMin m)).2)
    else
      (Option.none, spawnToMin m)

/-- `ProcessManager.writable`: below capacity, or at least one idle
worker. -/
def writable (m : ProcessManager) : Bool :=
  decide (m.procs.length < m.max_procs) || m.procs.any (fun x => !x.busy)

/-- Outcome of `communicate`: the caller blocks forever on the condition
variable (no other thread can make `writable` true in this model), the
dispatch crashes because `available_proc` returned `None` (Python would
raise `AttributeError` on `p.stdin`), or the command id is returned with
the new pool state. -/
inductive CommResult where
  | blocked
  | error
  | sent (id : Nat) (m : ProcessManager)

/-- `ProcessManager.communicate`: drain replies (no pool-state effect),
wait until `writable`, increment the global `_command_id`, pick an
`available_proc`, write the framed `(command, _command_id, args)` to its
stdin and return the id.  No `busy` flag is assigned anywhere on this
path. -/
def pushFrame (frame : PyObj) (p : Process) : Process :=
  { p with stdin := p.stdin ++ [frame] }

def communicate (m : ProcessManager) (command : PyObj) (args : PyObj) : CommResult :=
  if writable m then
    match available_proc { m with commandId := m.commandId + 1 } with
    | (some i, m2) =>
      .sent (m.commandId + 1)
        { m2 with procs :=
            m2.procs.modify (pushFrame (.tuple [command, .int (m.commandId + 1), args])) i }
    | (Option.none, _) => .error
  else
    .blocked

/-- A fresh pool as `ProcessManager.__init__` leaves it, with both module
counters at zero. -/
def initPM (minP maxP : Nat) : ProcessManager :=
  { min_procs := minP, max_procs := maxP, procs := [], commandId := 0, processId := 0 }

/-- C1 (divergence witness): on a fresh `min=1, max=1` pool, one
`communicate` call spawns a worker, writes the framed command to its
stdin and returns id 1 — yet the chosen worker's `busy` flag is still
`false`: no code path on the dispatch ever assigns `busy = True` (the
fresh-spawn half of the claim, `busy = False` at creation, does hold). -/
theorem c1_dispatch_does_not_mark_busy :
    communicate (initPM 1 1) (.str "ping") (.tuple []) =
      .sent 1 { min_procs := 1, max_procs := 1,
                procs := [{ busy := false, id := 0,
                            stdin := [.tuple [.str "ping", .int 1, .tuple []]] }],
                commandId := 1, processId := 1 } := rfl

theorem spawnLoop_commandId (fuel : Nat) (m : ProcessManager) :
    (spawnLoop fuel m).commandId = m.commandId := by
  induction fuel generalizing m with
  | zero => rfl
  | succ k ih =>
    simp only [spawnLoop]
    by_cases h : m.procs.length < m.min_procs
    · rw [if_pos h, ih]
      rfl
    · rw [if_neg h]

theorem available_proc_commandId (m : ProcessManager) :
    (available_proc m).2.commandId = m.commandId := by
  have hmin : (spawnToMin m).commandId = m.commandId := spawnLoop_commandId _ m
  unfold available_proc
  cases hf : (spawnToMin m).procs.findIdx? (fun p => !p.busy) with
  | some i => simp [hf, hmin]
  | none =>
    by_cases hc : (spawnToMin m).procs.length < (spawnToMin m).max_procs
    · simp [hf, hc, spawn, hmin]
    · simp [hf, hc, hmin]

theorem communicate_id (m m2 : ProcessManager) (c a : PyObj) (i : Nat)
    (h : communicate m c a = .sent i m2) :
    i = m.commandId + 1 ∧ m2.commandId = m.commandId + 1 := by
  unfold communicate at h
  by_cases hw : writable m = true
  · rw [if_pos hw] at h
    cases hap : available_proc { m with commandId := m.commandId + 1 } with
    | mk oi mnext =>
      cases oi with
      | some j =>
        rw [hap] at h
        simp only [CommResult.sent.injEq] at h
        obtain ⟨hi, hm⟩ := h
        have hcid : mnext.commandId = m.commandId + 1 := by
          have hpres := available_proc_commandId { m with commandId := m.commandId + 1 }
          rw [hap] at hpres
          simpa using hpres
        constructor
        · omega
        · rw [← hm]
          simpa using hcid
      | none =>
        rw [hap] at h
        simp at h
  · rw [if_neg hw] at h
    simp at h

/-- The ids returned by a chain of `communicate` calls on one pool
(stopping at a blocked or crashed call, which returns no id). -/
def commandIds (m : ProcessManager) : List (PyObj × PyObj) → List Nat
  | [] => []
  | (c, a) :: rest =>
    match communicate m c a with
    | .sent i m2 => i :: commandIds m2 rest
    | _ => []

theorem commandIds_lower (m : ProcessManager) (cmds : List (PyObj × PyObj)) :
    ∀ x ∈ commandIds m cmds, m.commandId < x := by
  induction cmds generalizing m with
  | nil => intro x hx; simp [commandIds] at hx
  | cons ca rest ih =>
    intro x hx
    obtain ⟨c, a⟩ := ca
    simp only [commandIds] at hx
    cases hcm : communicate m c a with
    | sent i m2 =>
      rw [hcm] at hx
      obtain ⟨hi, hc2⟩ := communicate_id m m2 c a i hcm
      rcases List.mem_cons.mp hx with h | h
      · omega
      · have := ih m2 x h
        omega
    | blocked => rw [hcm] at hx; simp at hx
    | error => rw [hcm] at hx; simp at hx

/-- C2: across any chain of `communicate` calls on one pool the returned
command ids are strictly increasing and pairwise distinct — they are
drawn from the monotonically increasing counter `_command_id`. -/
theorem c2_command_ids_strict_mono (m : ProcessManager) (cmds : List (PyObj × PyObj)) :
    (commandIds m cmds).Pairwise (· < ·) ∧ (commandIds m cmds).Nodup := by
  have hp : (commandIds m cmds).Pairwise (· < ·) := by
    induction cmds generalizing m with
    | nil => simp [commandIds]
    | cons ca rest ih =>
      obtain ⟨c, a⟩ := ca
      simp only [commandIds]
      cases hcm : communicate m c a with
      | sent i m2 =>
        refine List.pairwise_cons.mpr ⟨?_, ih m2⟩
        intro x hx
        obtain ⟨hi, hc2⟩ := communicate_id m m2 c a i hcm
        have := commandIds_lower m2 rest x hx
        omega
      | blocked => simp
      | error => simp
  exact ⟨hp, hp.imp Nat.ne_of_lt⟩

/-- What `Process.start` can bind to the local `executable`: a string, or
the boolean that `os.path.exists` returns. -/
inductive ExeValue where
  | str (s : String)
  | bool (b : Bool)

/-- The executable-resolution prefix of `Process.start`, translated
branch for branch: `executable = self.executable; if not executable:
venv = os.getenv('VIRTUALENV'); if venv and os.path.exists(venv +
'/bin/python'): executable = os.path.exists(venv + '/bin/python');
else: executable = 'python'`.  A `None` or empty override is falsy;
`pathExists` is the file-system probe. -/
def resolveExecutable (executable : Option String) (virtualenv : Option String)
    (pathExists : String → Bool) : ExeValue :=
  if executable.getD "" ≠ "" then .str (executable.getD "")
  else
    match virtualenv with
    | some venv =>
      if venv ≠ "" ∧ pathExists (venv ++ "/bin/python") then
        .bool (pathExists (venv ++ "/bin/python"))
      else .str "python"
    | Option.none => .str "python"

/-- C9 (divergence witness): with no override and a discoverable
virtual-environment interpreter, `Process.start` binds `executable` to
the boolean result of `os.path.exists` (`True`), not to the interpreter
path `/venv/bin/python` — the explicit-override and default branches do
follow the claimed order. -/
theorem c9_venv_interpreter_path_lost :
    resolveExecutable Option.none (some "/venv") (fun p => p == "/venv/bin/python") =
        .bool true ∧
      resolveExecutable (some "/opt/python") (some "/venv")
        (fun p => p == "/venv/bin/python") = .str "/opt/python" ∧
      resolveExecutable Option.none Option.none (fun _ => false) = .str "python" := by
  refine ⟨?_, ?_, ?_⟩ <;> simp [resolveExecutable]

/-- One step of the pool's evolution: a successful dispatch through
`communicate`, or an external change to one worker's `busy` flag (the
flag is documented as managed on behalf of the pool; allowing it to
change arbitrarily between operations only widens the set of reachable
states the invariants are proved over). -/
inductive PMStep : ProcessManager → ProcessManager → Prop where
  | comm (m m2 : ProcessManager) (c a : PyObj) (i : Nat) :
      communicate m c a = .sent i m2 → PMStep m m2
  | setBusy (m : ProcessManager) (i : Nat) (b : Bool) :
      PMStep m { m with procs := m.procs.modify (fun p => { p with busy := b }) i }

/-- States reachable from a pool state through `PMStep`. -/
def PMReach (m m2 : ProcessManager) : Prop := Relation.ReflTransGen PMStep m m2

theorem spawnLoop_minmax (fuel : Nat) (m : ProcessManager) :
    (spawnLoop fuel m).min_procs = m.min_procs ∧
      (spawnLoop fuel m).max_procs = m.max_procs := by
  induction fuel generalizing m with
  | zero => exact ⟨rfl, rfl⟩
  | succ k ih =>
    simp only [spawnLoop]
    by_cases h : m.procs.length < m.min_procs
    · rw [if_pos h]
      exact ih (spawn m).2
    · rw [if_neg h]
      exact ⟨rfl, rfl⟩

theorem spawnLoop_length (fuel : Nat) (m : ProcessManager)
    (h : m.min_procs - m.procs.length ≤ fuel) :
    (spawnLoop fuel m).procs.length = max m.procs.length m.min_procs := by
  induction fuel generalizing m with
  | zero =>
    have : m.min_procs ≤ m.procs.length := by omega
    simp only [spawnLoop]
    omega
  | succ k ih =>
    simp only [spawnLoop]
    by_cases hlt : m.procs.length < m.min_procs
    · rw [if_pos hlt]
      have hlen : (spawn m).2.procs.length = m.procs.length + 1 := by
        simp [spawn_procs]
      have := ih (spawn m).2
      rw [hlen] at this
      have hres := this (by simpa [spawn] using by omega)
      rw [hres]
      have hmin : (spawn m).2.min_procs = m.min_procs := rfl
      rw [hmin]
      omega
    · rw [if_neg hlt]
      omega

theorem spawnToMin_minmax (m : ProcessManager) :
    (spawnToMin m).min_procs = m.min_procs ∧ (spawnToMin m).max_procs = m.max_procs :=
  spawnLoop_minmax _ m

theorem spawnToMin_length (m : ProcessManager) :
    (spawnToMin m).procs.length = max m.procs.length m.min_procs :=
  spawnLoop_length _ m le_rfl

theorem spawnToMin_id_of_ge (m : ProcessManager) (h : ¬m.procs.length < m.min_procs) :
    spawnToMin m = m := by
  rw [spawnToMin_eq, if_neg h]

theorem available_proc_minmax (m : ProcessManager) :
    (available_proc m).2.min_procs = m.min_procs ∧
      (available_proc m).2.max_procs = m.max_procs := by
  obtain ⟨h1, h2⟩ := spawnToMin_minmax m
  unfold available_proc
  cases hf : (spawnToMin m).procs.findIdx? (fun p => !p.busy) with
  | some i =>
    simp only [hf]
    exact ⟨h1, h2⟩
  | none =>
    simp only [hf]
    by_cases hc : (spawnToMin m).procs.length < (spawnToMin m).max_procs
    · rw [if_pos hc]
      exact ⟨h1, h2⟩
    · rw [if_neg hc]
      exact ⟨h1, h2⟩

theorem available_proc_length_le (m : ProcessManager)
    (hmm : m.min_procs ≤ m.max_procs) (hlen : m.procs.length ≤ m.max_procs) :
    (available_proc m).2.procs.length ≤ m.max_procs := by
  have hlen2 : (spawnToMin m).procs.length = max m.procs.length m.min_procs :=
    spawnToMin_length m
  obtain ⟨hmin, hmax⟩ := spawnToMin_minmax m
  unfold available_proc
  cases hf : (spawnToMin m).procs.findIdx? (fun p => !p.busy) with
  | some i =>
    simp only [hf]
    omega
  | none =>
    by_cases hc : (spawnToMin m).procs.length < (spawnToMin m).max_procs
    · simp only [hf, hc, if_pos, spawn_procs]
      simp only [List.length_append, List.length_cons, List.length_nil]
      omega
    · simp only [hf, hc, if_neg, ite_false]
      omega

theorem available_proc_length_ge (m : ProcessManager) :
    max m.procs.length m.min_procs ≤ (available_proc m).2.procs.length := by
  have hlen2 : (spawnToMin m).procs.length = max m.procs.length m.min_procs :=
    spawnToMin_length m
  unfold available_proc
  cases hf : (spawnToMin m).procs.findIdx? (fun p => !p.busy) with
  | some i =>
    simp only [hf]
    omega
  | none =>
    by_cases hc : (spawnToMin m).procs.length < (spawnToMin m).max_procs
    · simp only [hf, hc, if_pos, spawn_procs]
      simp only [List.length_append, List.length_cons, List.length_nil]
      omega
    · simp only [hf, hc, if_neg, ite_false]
      omega

theorem communicate_sent_inv (m m2 : ProcessManager) (c a : PyObj) (i : Nat)
    (h : communicate m c a = .sent i m2) :
    m2.min_procs = m.min_procs ∧ m2.max_procs = m.max_procs ∧
      m2.procs.length = (available_proc { m with commandId := m.commandId + 1 }).2.procs.length := by
  unfold communicate at h
  by_cases hw : writable m = true
  · rw [if_pos hw] at h
    cases hap : available_proc { m with commandId := m.commandId + 1 } with
    | mk oi mnext =>
      cases oi with
      | some j =>
        rw [hap] at h
        simp only [CommResult.sent.injEq] at h
        obtain ⟨hi, hm⟩ := h
        obtain ⟨hmn, hmx⟩ := available_proc_minmax { m with commandId := m.commandId + 1 }
        rw [hap] at hmn hmx
        subst hm
        refine ⟨by simpa using hmn, by simpa using hmx, ?_⟩
        simp [hap, List.length_modify]
      | none =>
        rw [hap] at h
        simp at h
  · rw [if_neg hw] at h
    simp at h

theorem PMStep_minmax_length (m m2 : ProcessManager) (h : PMStep m m2) :
    m2.min_procs = m.min_procs ∧ m2.max_procs = m.max_procs ∧
      m.procs.length ≤ m2.procs.length ∧
      (m.min_procs ≤ m.max_procs → m.procs.length ≤ m.max_procs →
        m2.procs.length ≤ m.max_procs) := by
  cases h with
  | comm mm c a i hc =>
    obtain ⟨hmn, hmx, hlen⟩ := communicate_sent_inv _ _ c a i hc
    refine ⟨hmn, hmx, ?_, ?_⟩
    · rw [hlen]
      have := available_proc_length_ge { m with commandId := m.commandId + 1 }
      simp only at this
      omega
    · intro hmm hle
      rw [hlen]
      exact available_proc_length_le { m with commandId := m.commandId + 1 } hmm hle
  | setBusy i b =>
    refine ⟨rfl, rfl, ?_, ?_⟩ <;> simp [List.length_modify]

theorem PMReach_inv (minP maxP : Nat) (hmm : minP ≤ maxP) (s : ProcessManager)
    (hr : PMReach (initPM minP maxP) s) :
    s.min_procs = minP ∧ s.max_procs = maxP ∧ s.procs.length ≤ maxP := by
  induction hr with
  | refl => exact ⟨rfl, rfl, by simp [initPM]⟩
  | tail hstep hlast ih =>
    rename_i b c
    obtain ⟨ih1, ih2, ih3⟩ := ih
    obtain ⟨h1, h2, h3, h4⟩ := PMStep_minmax_length b c hlast
    refine ⟨by omega, by omega, ?_⟩
    have := h4 (by omega) (by omega)
    omega

theorem PMReach_length_mono (s t : ProcessManager) (hr : PMReach s t) :
    s.procs.length ≤ t.procs.length := by
  induction hr with
  | refl => exact le_rfl
  | tail hstep hlast ih =>
    rename_i b c
    obtain ⟨_, _, h3, _⟩ := PMStep_minmax_length b c hlast
    omega

/-- C3 as stated is false: with `min_workers = 2, max_workers = 1` a
single dispatch from the fresh pool reaches a state with 2 workers,
exceeding `max_workers` — `available_proc` grows to `min_procs` without
consulting `max_procs`. -/
def c3state : ProcessManager :=
  { min_procs := 2, max_procs := 1,
    procs := [{ busy := false, id := 0, stdin := [.tuple [.str "x", .int 1, .tuple []]] },
              { busy := false, id := 1, stdin := [] }],
    commandId := 1, processId := 2 }

/-- C3 counterexample: from the fresh `min=2, max=1` pool, one
`communicate` call reaches a state whose worker count 2 exceeds
`max_procs = 1`. -/
theorem c3_counterexample :
    communicate (initPM 2 1) (.str "x") (.tuple []) = .sent 1 c3state ∧
      PMReach (initPM 2 1) c3state ∧
      c3state.procs.length = 2 ∧ (initPM 2 1).max_procs = 1 :=
  ⟨rfl, Relation.ReflTransGen.single (PMStep.comm _ _ _ _ 1 rfl), rfl, rfl⟩

/-- C3 amended: provided `min_workers ≤ max_workers`, every pool state
reachable through dispatches (and arbitrary busy-flag changes) keeps
`|workers| ≤ max_workers`; once a dispatch has occurred the worker count
is at least `min_workers` and stays so; and a dispatch grows the pool
only when it was below `min_workers`, or no idle worker existed and
capacity remained. -/
theorem c3_amended_pool_bounds (minP maxP : Nat) (hmm : minP ≤ maxP)
    (s : ProcessManager) (hr : PMReach (initPM minP maxP) s) :
    s.procs.length ≤ maxP ∧
      (∀ c a i s2, communicate s c a = .sent i s2 →
        (minP ≤ s2.procs.length ∧ ∀ t, PMReach s2 t → minP ≤ t.procs.length) ∧
        (s.procs.length < s2.procs.length →
          s.procs.length < minP ∨
            ((∀ p ∈ s.procs, p.busy = true) ∧ s.procs.length < maxP))) := by
  obtain ⟨hmin, hmax, hbound⟩ := PMReach_inv minP maxP hmm s hr
  refine ⟨hbound, ?_⟩
  intro c a i s2 hcomm
  obtain ⟨hmn2, hmx2, hlen2⟩ := communicate_sent_inv s s2 c a i hcomm
  constructor
  · have hge := available_proc_length_ge { s with commandId := s.commandId + 1 }
    simp only at hge
    have hs2 : minP ≤ s2.procs.length := by
      rw [hlen2]
      omega
    refine ⟨hs2, ?_⟩
    intro t hrt
    have := PMReach_length_mono s2 t hrt
    omega
  · intro hgrow
    by_cases hlt : s.procs.length < minP
    · exact Or.inl hlt
    · right
      -- no growth came from the while loop, so it came from the second spawn
      have hm1 : ({ s with commandId := s.commandId + 1 } : ProcessManager).procs = s.procs :=
        rfl
      have hnlt : ¬({ s with commandId := s.commandId + 1 } : ProcessManager).procs.length <
          ({ s with commandId := s.commandId + 1 } : ProcessManager).min_procs := by
        simp only [hm1, hmin]
        omega
      have hid : spawnToMin { s with commandId := s.commandId + 1 } =
          { s with commandId := s.commandId + 1 } := spawnToMin_id_of_ge _ hnlt
      rw [hlen2] at hgrow
      unfold available_proc at hgrow
      rw [hid] at hgrow
      cases hf : ({ s with commandId := s.commandId + 1 } : ProcessManager).procs.findIdx?
          (fun p => !p.busy) with
      | some j =>
        rw [hf] at hgrow
        simp at hgrow
      | none =>
        have hbusy : ∀ p ∈ s.procs, p.busy = true := by
          intro p hp
          have := List.findIdx?_eq_none_iff.mp hf p (by simpa [hm1] using hp)
          simpa using this
        by_cases hc : ({ s with commandId := s.commandId + 1 } : ProcessManager).procs.length <
            ({ s with commandId := s.commandId + 1 } : ProcessManager).max_procs
        · refine ⟨hbusy, ?_⟩
          simpa [hm1, hmax] using hc
        · rw [hf] at hgrow
          rw [if_neg hc] at hgrow
          simp at hgrow

/-- Witness for the amended C3 at the fresh `min=1, max=2` pool. -/
theorem c3_amended_pool_bounds_witness :
    (initPM 1 2).procs.length ≤ 2 :=
  (c3_amended_pool_bounds 1 2 (by decide) (initPM 1 2) Relation.ReflTransGen.refl).1

/-- One entry of a `ReadPoller`'s `_streams` mapping (`polling.py`,
epoll strategy — the variant selected on this platform; the kqueue branch
is dead code behind `elif False`): the registered stream's OS handle and
its `closed` flag, which became `True` when a read on it returned the
`Null` sentinel and is never reset. -/
structure PollEntry where
  fd : Nat
  closed : Bool

/-- The registered-stream table of a `ReadPoller`. -/
structure ReadPoller where
  streams : List PollEntry

/-- The `can_poll` property: at least one stream registered. -/
def can_poll (P : ReadPoller) : Bool := P.streams.length > 0

/-- `ReadPoller._cleanup`: unregister and drop every stream whose
`closed` flag is set. -/
def cleanup (P : ReadPoller) : ReadPoller :=
  ⟨P.streams.filter (fun e => !e.closed)⟩

/-- `ReadPoller.poll`: run `_cleanup`, then yield those streams the
kernel reports ready (the `ready` oracle stands for the epoll result;
`_poll` yields a stream only if it is still in `_streams`). -/
def pollOnce (ready : Nat → Bool) (P : ReadPoller) : ReadPoller × List PollEntry :=
  (cleanup P, (cleanup P).streams.filter (fun e => ready e.fd))

/-- The outputs of successive `poll` calls under a sequence of readiness
oracles. -/
def pollRuns (oracles : List (Nat → Bool)) (P : ReadPoller) : List (List PollEntry) :=
  match oracles with
  | [] => []
  | o :: rest => (pollOnce o P).2 :: pollRuns rest (pollOnce o P).1

theorem pollRuns_only_open (oracles : List (Nat → Bool)) (P : ReadPoller) :
    ∀ out ∈ pollRuns oracles P, ∀ e ∈ out, e.closed = false := by
  induction oracles generalizing P with
  | nil => intro out hout; simp [pollRuns] at hout
  | cons o rest ih =>
    intro out hout e he
    simp only [pollRuns, List.mem_cons] at hout
    rcases hout with h | h
    · subst h
      simp only [pollOnce, cleanup, List.mem_filter] at he
      obtain ⟨⟨_, hopen⟩, _⟩ := he
      simpa using hopen
    · exact ih (pollOnce o P).1 out h e he

/-- C6: once a registered stream's read has yielded the closed sentinel
(its `closed` flag is set), the next `poll()` deregisters it and does not
yield it, no later `poll()` ever yields it, and `can_poll` goes false
when it was the only registered stream. -/
theorem c6_closed_stream_deregistered (P : ReadPoller) (e : PollEntry)
    (_hmem : e ∈ P.streams) (hclosed : e.closed = true) :
    (∀ o, e ∉ (pollOnce o P).2 ∧ e ∉ (pollOnce o P).1.streams ∧
      (P.streams = [e] → can_poll (pollOnce o P).1 = false)) ∧
    (∀ oracles, ∀ out ∈ pollRuns oracles P, e ∉ out) := by
  constructor
  · intro o
    refine ⟨?_, ?_, ?_⟩
    · intro habs
      simp only [pollOnce, cleanup, List.mem_filter] at habs
      obtain ⟨⟨_, hopen⟩, _⟩ := habs
      rw [hclosed] at hopen
      simp at hopen
    · intro habs
      simp only [pollOnce, cleanup, List.mem_filter] at habs
      obtain ⟨_, hopen⟩ := habs
      rw [hclosed] at hopen
      simp at hopen
    · intro hone
      simp [pollOnce, cleanup, can_poll, hone, hclosed]
  · intro oracles out hout habs
    have := pollRuns_only_open oracles P out hout e habs
    rw [hclosed] at this
    simp at this

/-- Witness for C6 at a one-entry poller whose stream is closed. -/
theorem c6_closed_stream_deregistered_witness :
    (⟨3, true⟩ : PollEntry) ∉ (pollOnce (fun _ => true) ⟨[⟨3, true⟩]⟩).2 :=
  ((c6_closed_stream_deregistered ⟨[⟨3, true⟩]⟩ ⟨3, true⟩ (by simp) rfl).1
    (fun _ => true)).1

/-- The worker-side loop state of `BaseServer._run`: the reply frames
written to the output stream (in order), the warnings logged for unknown
commands, the count of handler exceptions logged by the `except` clause,
and whether the output stream is broken (so `output_stream.write`
returns `False`). -/
structure SrvState where
  frames : List PyObj
  warns : List PyObj
  errors : Nat
  broken : Bool

/-- The `cmd == 'stop'` comparison of `_run`. -/
def isStop : PyObj → Bool
  | .str s => s == "stop"
  | _ => false

/-- `BaseServer._run`, iterating the command triples `itermsg` yields
(so the `Null` sentinel ends the input before being yielded; the loop's
own `cmd == Null` test is kept for faithfulness): `stop` breaks; a name
with no `cmd_<name>` handler logs a warning and replies
`('noop', cmd_id, None)`; a handler that returns `v` replies
`('response', cmd_id, v)`; a handler that raises is caught by the
`except` clause, counted, and the loop continues with no reply; a failed
write breaks the loop.  `lookup` models `getattr(self, 'cmd_%s' % cmd,
None)` and a handler is a function from the args object to a result or a
raised exception. -/
def srvRun (lookup : PyObj → Option (PyObj → Except Unit PyObj)) :
    List (ReadValue × PyObj × PyObj) → SrvState → SrvState
  | [], st => st
  | (.null, _, _) :: _, st => st
  | (.val cv, cid, args) :: rest, st =>
    if isStop cv then st
    else
      match lookup cv with
      | Option.none =>
        if st.broken then { st with warns := st.warns ++ [cv] }
        else
          srvRun lookup rest
            { st with warns := st.warns ++ [cv],
                      frames := st.frames ++ [.tuple [.str "noop", cid, .none]] }
      | some h =>
        match h args with
        | .error _ => srvRun lookup rest { st with errors := st.errors + 1 }
        | .ok v =>
          if st.broken then st
          else
            srvRun lookup rest
              { st with frames := st.frames ++ [.tuple [.str "response", cid, v]] }

/-- The handler table of the C8 counterexample server: one command,
`boom`, whose handler raises. -/
def lookupBoom : PyObj → Option (PyObj → Except Unit PyObj) :=
  fun v =>
    match v with
    | .str s => if s == "boom" then some (fun _ => .error ()) else Option.none
    | _ => Option.none

/-- C8 counterexample: the server loop reads the command `boom` with id
1, its handler raises, the exception is caught and counted — and no
reply frame at all is written for id 1, refuting "exactly one reply
frame is written for every command read". -/
theorem c8_counterexample :
    srvRun lookupBoom [(.val (.str "boom"), .int 1, .tuple [])] ⟨[], [], 0, false⟩ =
      ⟨[], [], 1, false⟩ := rfl

/-- C8 amended: for a command read by the loop over a working output
stream, `stop` ends the loop; a command with no handler logs a warning
and gets exactly one `('noop', cmd_id, None)` reply; a command whose
handler returns gets exactly one `('response', cmd_id, value)` reply; a
command whose handler raises gets no reply but the loop continues with
the remaining commands. -/
theorem c8_one_reply_unless_handler_raises
    (lookup : PyObj → Option (PyObj → Except Unit PyObj))
    (c cid args : PyObj) (rest : List (ReadValue × PyObj × PyObj)) (st : SrvState)
    (hb : st.broken = false) :
    (isStop c = true → srvRun lookup ((.val c, cid, args) :: rest) st = st) ∧
    (isStop c = false → lookup c = Option.none →
      srvRun lookup ((.val c, cid, args) :: rest) st =
        srvRun lookup rest
          { st with warns := st.warns ++ [c],
                    frames := st.frames ++ [.tuple [.str "noop", cid, .none]] }) ∧
    (∀ h v, isStop c = false → lookup c = some h → h args = .ok v →
      srvRun lookup ((.val c, cid, args) :: rest) st =
        srvRun lookup rest
          { st with frames := st.frames ++ [.tuple [.str "response", cid, v]] }) ∧
    (∀ h e, isStop c = false → lookup c = some h → h args = .error e →
      srvRun lookup ((.val c, cid, args) :: rest) st =
        srvRun lookup rest { st with errors := st.errors + 1 }) := by
  refine ⟨?_, ?_, ?_, ?_⟩
  · intro hstop
    simp [srvRun, hstop]
  · intro hstop hnone
    simp [srvRun, hstop, hnone, hb]
  · intro h v hstop hsome hok
    simp [srvRun, hstop, hsome, hok, hb]
  · intro h e hstop hsome herr
    simp [srvRun, hstop, hsome, herr]

/-- Witness for the amended C8: an unknown command gets exactly one noop
reply carrying its id. -/
theorem c8_one_reply_unless_handler_raises_witness :
    srvRun lookupBoom [(.val (.str "ping"), .int 7, .tuple [])] ⟨[], [], 0, false⟩ =
      srvRun lookupBoom []
        ⟨[.tuple [.str "noop", .int 7, .none]], [.str "ping"], 0, false⟩ :=
  ((c8_one_reply_unless_handler_raises lookupBoom (.str "ping") (.int 7) (.tuple [])
    [] ⟨[], [], 0, false⟩ rfl).2.1 rfl rfl)

end Deoplete
